import Mathlib

/-!
Verification of the core crawling and synthesis logic of the `sebastes`
code generator: the Redfish graph scanner (`sebastes/scanner/scanner.py`),
the draft-model normalization pipeline (`sebastes/parser/parser.py`) and
the output index assembly (`sebastes/processor/processor.py`), shallowly
embedded in Lean.

Modelling conventions:
* JSON values fetched over HTTP are an inductive `Json`.
* The network is a finite association list `List (String × Json)` from URI
  to payload; a URI outside the list is a transport failure (in the source
  a `requests` error or non-OK response, both raised and caught).
* Python exceptions are `Except Unit` results; the scanner's broad
  `except Exception` handler corresponds to matching on the `.error` case.
* `random.sample(population, k)` is an abstract index sampler
  `smp : Nat → Nat → List Nat` (`smp n k` = the chosen positions among
  `n`); its `random.sample` contract (k distinct in-range positions) is
  the `SamplerOk` predicate.
* Only string-valued `@odata.id` links are modelled; the crawler follows
  link values as URI strings.
-/

/-- JSON data as fetched from a Redfish endpoint. -/
inductive Json where
  | null : Json
  | bool : Bool → Json
  | num : Int → Json
  | str : String → Json
  | arr : List Json → Json
  | obj : List (String × Json) → Json

/-- Substring test on character lists: Python's `in` operator for strings. -/
def isSubstrL (pat s : List Char) : Bool :=
  (List.range (s.length + 1)).any (fun i => (s.drop i).take pat.length == pat)

/-- Substring test on strings: `pat in s` in Python. -/
def isSubstrS (pat s : String) : Bool :=
  isSubstrL pat.data s.data

/-- Model of `dict.get(key, None)` on a JSON object's field list. -/
def lookupField : List (String × Json) → String → Option Json
  | [], _ => none
  | (k, v) :: rest, key => if k == key then some v else lookupField rest key

/-- Python's `str.split('.')` on a character list: the list of chunks
between the dots (never empty; `""` splits to `[""]`). -/
def splitOnDotL : List Char → List (List Char)
  | [] => [[]]
  | c :: rest =>
    match splitOnDotL rest with
    | [] => [[c]]
    | h :: t => if c == '.' then [] :: h :: t else (c :: h) :: t

/-- Python's `str.replace(pat, rep)` on character lists: replace
non-overlapping occurrences left to right (fuel-bounded; the fuel
`s.length + 1` used below always suffices). -/
def replaceL : Nat → List Char → List Char → List Char → List Char
  | 0, _, _, s => s
  | _ + 1, _, _, [] => []
  | f + 1, pat, rep, c :: rest =>
    if !pat.isEmpty && ((c :: rest).take pat.length == pat) then
      rep ++ replaceL f pat rep ((c :: rest).drop pat.length)
    else c :: replaceL f pat rep rest

/-- Python's `str.replace(pat, rep)` on strings. -/
def strReplace (s pat rep : String) : String :=
  String.mk (replaceL (s.data.length + 1) pat.data rep.data s.data)

/-- Python's `str.lower()` (ASCII case folding). -/
def lowerS (s : String) : String :=
  String.mk (s.data.map Char.toLower)

/-- Model of `value[0].upper() + value[1:]` of `Scanner._get_model_name`. -/
def upperFirst (v : String) : String :=
  match v.data with
  | [] => ""
  | c :: cs => String.mk (c.toUpper :: cs)

/-- Model of `Scanner._get_model_name`: derive the type discriminator from the
`@odata.type` tag.  `.ok none` is Python's `None` return (no tag);
`.error ()` is a raised exception (tag not a string, or empty last
component, caught by the scan loop); otherwise the last dot-component
with `collection`/`entry` capitalized and the first letter upper-cased. -/
def getModelName : Json → Except Unit (Option String)
  | Json.obj fields =>
    match lookupField fields "@odata.type" with
    | none => Except.ok none
    | some (Json.str s) =>
      let v := String.mk ((splitOnDotL s.data).getLastD [])
      let v := strReplace v "collection" "Collection"
      let v := strReplace v "entry" "Entry"
      if v.data.isEmpty then Except.error () else Except.ok (some (upperFirst v))
    | some _ => Except.error ()
  | _ => Except.error ()

/-- Model of `result.append(value)` for an `@odata.id` field in `Scanner._get_uris`:
appended only when not already collected (`value not in result`). -/
def pushUri (acc : List String) : Json → List String
  | Json.str s => if acc.contains s then acc else acc ++ [s]
  | _ => acc

/-- Propagation of a raised exception through the URI-collection loop
(sequencing of fallible steps in `Scanner._get_uris`). -/
def exBind (x : Except Unit (List String))
    (f : List String → Except Unit (List String)) : Except Unit (List String) :=
  match x with
  | Except.error e => Except.error e
  | Except.ok a => f a

mutual

/-- Model of `Scanner._get_uris`: collect child URIs from fetched data.  Iterating
`data.items()` over a non-object raises (`.error ()`); each field is
processed by the `@odata.id`, `Members` and nested-object steps in
order, starting from an empty `result` list. -/
def getUris (smp : Nat → Nat → List Nat) (W : Nat) : Json → Except Unit (List String)
  | Json.obj fields => getUrisFields smp W fields (Except.ok [])
  | _ => Except.error ()
termination_by j => (sizeOf j, 0)

/-- The `for key, value in data.items()` loop of `Scanner._get_uris`,
threading the accumulated `result` (or the raised exception) through the
per-field steps. -/
def getUrisFields (smp : Nat → Nat → List Nat) (W : Nat) :
    List (String × Json) → Except Unit (List String) → Except Unit (List String)
  | [], st => st
  | (k, v) :: rest, st => getUrisFields smp W rest (fieldStep smp W k v st)
termination_by fields _ => (sizeOf fields, 0)

/-- One iteration of the `Scanner._get_uris` loop: the `@odata.id` append,
the `Members` walk and the nested-object recursion, in source order. -/
def fieldStep (smp : Nat → Nat → List Nat) (W : Nat) (k : String) (v : Json)
    (st : Except Unit (List String)) : Except Unit (List String) :=
  match st with
  | Except.error e => Except.error e
  | Except.ok acc =>
    exBind (membersStep smp W k v (if k == "@odata.id" then pushUri acc v else acc))
      (dictStep smp W v)
termination_by (sizeOf v, 3)

/-- The `if key == 'Members'` step of `Scanner._get_uris`: a member list
larger than the width cap `W` is sampled down via the index sampler, a
smaller one is walked in full; a non-list `Members` value raises. -/
def membersStep (smp : Nat → Nat → List Nat) (W : Nat) (k : String) (v : Json)
    (acc : List String) : Except Unit (List String) :=
  if k == "Members" then
    match v with
    | Json.arr ms =>
      if ms.length > W then getUrisMembers smp W ms (smp ms.length W) (Except.ok acc)
      else getUrisDirect smp W ms (Except.ok acc)
    | _ => Except.error ()
  else Except.ok acc
termination_by (sizeOf v, 2)

/-- The `if isinstance(value, dict)` step of `Scanner._get_uris`: recurse
into a nested object and append its URIs. -/
def dictStep (smp : Nat → Nat → List Nat) (W : Nat) (v : Json)
    (acc : List String) : Except Unit (List String) :=
  match v with
  | Json.obj fs =>
    exBind (getUrisFields smp W fs (Except.ok [])) (fun r => Except.ok (acc ++ r))
  | _ => Except.ok acc
termination_by (sizeOf v, 2)

/-- The `for _entry in random.sample(...)` loop of `Scanner._get_uris`:
walk the sampled member positions. -/
def getUrisMembers (smp : Nat → Nat → List Nat) (W : Nat) (ms : List Json) :
    List Nat → Except Unit (List String) → Except Unit (List String)
  | [], st => st
  | i :: is, st => getUrisMembers smp W ms is (idxStep smp W ms i st)
termination_by is _ => (sizeOf ms, is.length + 1)

/-- Processing of one sampled member position: recurse into the entry at
that position and append its URIs. -/
def idxStep (smp : Nat → Nat → List Nat) (W : Nat) (ms : List Json) (i : Nat)
    (st : Except Unit (List String)) : Except Unit (List String) :=
  match st with
  | Except.error e => Except.error e
  | Except.ok acc =>
    match h : ms[i]? with
    | none => Except.ok acc
    | some e => exBind (getUris smp W e) (fun r => Except.ok (acc ++ r))
termination_by (sizeOf ms, 0)
decreasing_by
  exact Prod.Lex.left _ _ (List.sizeOf_lt_of_mem (List.getElem?_mem h))

/-- The `for _entry in data['Members']` loop of `Scanner._get_uris`
(member list within the width cap): walk every entry. -/
def getUrisDirect (smp : Nat → Nat → List Nat) (W : Nat) :
    List Json → Except Unit (List String) → Except Unit (List String)
  | [], st => st
  | e :: tl, st => getUrisDirect smp W tl (entryStep smp W e st)
termination_by l _ => (sizeOf l, 0)

/-- Processing of one member entry: recurse into it and append its URIs. -/
def entryStep (smp : Nat → Nat → List Nat) (W : Nat) (e : Json)
    (st : Except Unit (List String)) : Except Unit (List String) :=
  match st with
  | Except.error er => Except.error er
  | Except.ok acc => exBind (getUris smp W e) (fun r => Except.ok (acc ++ r))
termination_by (sizeOf e, 1)

end

/-- Model of `RedfishCategory` of `scanner.py`. -/
inductive RCategory where
  | RESOURCE : RCategory
  | COLLECTION : RCategory
  | ELEMENT : RCategory
  | UNKNOWN : RCategory
deriving DecidableEq, Repr

/-- Model of `RedfishData`: one scanned node with its name, raw sample, source URI
and (non-owning) parent back-reference. -/
inductive RModel where
  | mk : String → Json → String → Option RModel → RModel

/-- Model of `RedfishData.name`. -/
def RModel.name : RModel → String
  | RModel.mk n _ _ _ => n

/-- Model of `RedfishData.data`. -/
def RModel.data : RModel → Json
  | RModel.mk _ d _ _ => d

/-- Model of `RedfishData.uri`. -/
def RModel.uri : RModel → String
  | RModel.mk _ _ u _ => u

/-- Model of `RedfishData.parent`. -/
def RModel.parent : RModel → Option RModel
  | RModel.mk _ _ _ p => p

/-- Model of `RedfishData.full_name`: parent name concatenated with own name when a
parent exists, else the own name. -/
def RModel.full_name : RModel → String
  | RModel.mk n _ _ (some p) => p.name ++ n
  | RModel.mk n _ _ none => n

/-- Model of `RedfishData.category`: `'collection' in name.lower()` wins, else a
node whose parent is a Collection and whose name occurs inside the
parent's name is an Element, else Resource. -/
def RModel.category : RModel → RCategory
  | RModel.mk n _ _ par =>
    if isSubstrS "collection" (lowerS n) then RCategory.COLLECTION
    else
      match par with
      | some p =>
        if p.category == RCategory.COLLECTION && isSubstrS n p.name then
          RCategory.ELEMENT
        else RCategory.RESOURCE
      | none => RCategory.RESOURCE

/-- Model of `RedfishData.__eq__`: equality is decided by `full_name` alone. -/
def modelEq (a b : RModel) : Bool :=
  b.full_name == a.full_name

/-- Model of `model in self._redfish`: list membership through `RedfishData.__eq__`. -/
def memModel (l : List RModel) (m : RModel) : Bool :=
  l.any (fun x => modelEq x m)

/-- Model of `Problem` dataclass of `scanner.py`. -/
structure Problem where
  url : String
  description : String
deriving DecidableEq, Repr

/-- The scanner's shared mutable traversal state: `self._redfish`,
`self._scanned_uris` and `self._problems`. -/
structure ScanState where
  redfish : List RModel
  scanned : List String
  problems : List Problem

/-- The scanner's state at construction time: all three lists empty. -/
def initState : ScanState := ⟨[], [], []⟩

/-- Description of a transport failure Problem at a URI (the source records
`str(error)`, whose exact text depends on the HTTP response). -/
def fetchErrText (uri : String) : String := "fetch failed: " ++ uri

/-- Description of a Problem raised while deriving a model name. -/
def nameErrText (uri : String) : String := "bad type tag at: " ++ uri

/-- Description of a Problem raised while extracting child URIs. -/
def urisErrText (uri : String) : String := "bad members at: " ++ uri

/-- Model of `'jsonschemas' in entry_point.lower()`: the excluded-path pattern. -/
def hasJsonschemas (entry : String) : Bool :=
  isSubstrS "jsonschemas" (lowerS entry)

/-- The fetch `Scanner._get_json` against a finite URI table: `none` is a
transport failure (connection error or non-OK response, both raised). -/
def lookupG : List (String × Json) → String → Option Json
  | [], _ => none
  | (k, v) :: rest, u => if k == u then some v else lookupG rest u

/-- Model of `(parent is None or parent.name != name)`: registration allowed unless
the derived name re-declares the immediate parent's own name. -/
def registrable (parent : Option RModel) (n : String) : Bool :=
  match parent with
  | none => true
  | some p => p.name != n

/-- Model of `if model not in self._redfish: self._redfish.append(model)`. -/
def registerModel (st : ScanState) (m : RModel) : ScanState :=
  if memModel st.redfish m then st else { st with redfish := st.redfish ++ [m] }

/-- Appending a `Problem` for the current URI: the
`except Exception` handler of `Scanner.scan_models`. -/
def addProblem (st : ScanState) (entry txt : String) : ScanState :=
  { st with problems := st.problems ++ [⟨entry, txt⟩] }

/-- Model of `model = RedfishData(...)` guarded by
`(parent is None or parent.name != name) and name is not None`. -/
def mkModelOpt (parent : Option RModel) (nameOpt : Option String) (data : Json)
    (entry : String) : Option RModel :=
  match nameOpt with
  | none => none
  | some n =>
    if registrable parent n then some (RModel.mk n data entry parent) else none

/-- Registration of the model (when one was constructed) into the
discovered collection. -/
def regStep (st : ScanState) : Option RModel → ScanState
  | none => st
  | some m => registerModel st m

mutual

/-- Model of `Scanner.scan_models`: depth-first budget-bounded traversal, with a
fuel parameter standing for the recursion depth (the source recursion is
bounded by the visited-URI set; fuel-independence once the fuel exceeds
the number of fetchable URIs is proved below).  Budget exhausted or URI
already visited / excluded: the state is returned unchanged. -/
def scanModels (g : List (String × Json)) (smp : Nat → Nat → List Nat) (N W : Nat) :
    Nat → String → Option RModel → ScanState → ScanState
  | 0, _, _, st => st
  | Nat.succ f, entry, parent, st =>
    if st.redfish.length < N then
      if !st.scanned.contains entry && !hasJsonschemas entry then
        scanVisit g smp N W f entry parent { st with scanned := st.scanned ++ [entry] }
      else st
    else st
termination_by fuel _ _ _ => (fuel, 4)

/-- The fetch step of one `Scanner.scan_models` frame: a transport failure
becomes a Problem for this URI and the branch is abandoned. -/
def scanVisit (g : List (String × Json)) (smp : Nat → Nat → List Nat) (N W : Nat)
    (f : Nat) (entry : String) (parent : Option RModel) (st : ScanState) : ScanState :=
  match lookupG g entry with
  | none => addProblem st entry (fetchErrText entry)
  | some data => scanData g smp N W f entry parent data st
termination_by (f + 1, 3)

/-- The name-derivation step of one `Scanner.scan_models` frame: a raised
exception becomes a Problem for this URI. -/
def scanData (g : List (String × Json)) (smp : Nat → Nat → List Nat) (N W : Nat)
    (f : Nat) (entry : String) (parent : Option RModel) (data : Json)
    (st : ScanState) : ScanState :=
  match getModelName data with
  | Except.error _ => addProblem st entry (nameErrText entry)
  | Except.ok nameOpt =>
    scanNamed g smp N W f entry data (mkModelOpt parent nameOpt data entry) st
termination_by (f + 1, 2)

/-- The registration and child-extraction steps of one
`Scanner.scan_models` frame: register the model (if any), then recurse
into the extracted child URIs with it as parent; a raised exception in
`_get_uris` becomes a Problem for this URI. -/
def scanNamed (g : List (String × Json)) (smp : Nat → Nat → List Nat) (N W : Nat)
    (f : Nat) (entry : String) (data : Json) (modelOpt : Option RModel)
    (st : ScanState) : ScanState :=
  match getUris smp W data with
  | Except.error _ => addProblem (regStep st modelOpt) entry (urisErrText entry)
  | Except.ok uris => scanChildren g smp N W f uris modelOpt (regStep st modelOpt)
termination_by (f + 1, 1)

/-- The `for uri in self._get_uris(data)` loop of `Scanner.scan_models`:
recurse into each not-yet-visited child URI with the current node as
parent, threading the shared state left to right. -/
def scanChildren (g : List (String × Json)) (smp : Nat → Nat → List Nat) (N W : Nat) :
    Nat → List String → Option RModel → ScanState → ScanState
  | _, [], _, st => st
  | f, u :: us, p, st =>
    scanChildren g smp N W f us p
      (if st.scanned.contains u then st else scanModels g smp N W f u p st)
termination_by f us _ _ => (f, us.length + 5)

end

/-- Model of `DataModelCategory` of `parser.py`. -/
inductive DataModelCategory where
  | ACTION : DataModelCategory
  | LINK : DataModelCategory
  | RESOURCE : DataModelCategory
  | COLLECTION : DataModelCategory
  | UNKNOWN : DataModelCategory
deriving DecidableEq, Repr

/-- Model of `DataModelCategory.value` strings, used as canonical base-type names. -/
def categoryValue : DataModelCategory → String
  | DataModelCategory.ACTION => "Action"
  | DataModelCategory.LINK => "Link"
  | DataModelCategory.RESOURCE => "Resource"
  | DataModelCategory.COLLECTION => "Collection"
  | DataModelCategory.UNKNOWN => "???"

/-- Model of `category_fields` of `parser.py`, in dict insertion order (the
iteration order of `CustomDataModel.category`). -/
def categoryFields : List (DataModelCategory × List String) :=
  [(DataModelCategory.LINK, ["odata_id"]),
   (DataModelCategory.ACTION, ["target"]),
   (DataModelCategory.RESOURCE, ["odata_id", "odata_type"]),
   (DataModelCategory.COLLECTION, ["odata_id", "odata_type", "members_odata_count", "members"])]

/-- Model of `category_fields[cat]` as a function. -/
def requiredFields : DataModelCategory → List String
  | DataModelCategory.LINK => ["odata_id"]
  | DataModelCategory.ACTION => ["target"]
  | DataModelCategory.RESOURCE => ["odata_id", "odata_type"]
  | DataModelCategory.COLLECTION =>
    ["odata_id", "odata_type", "members_odata_count", "members"]
  | DataModelCategory.UNKNOWN => []

/-- Model of `optional_fields` of `parser.py` as a function. -/
def optionalFields : DataModelCategory → List String
  | DataModelCategory.LINK => []
  | DataModelCategory.ACTION => ["redfish_action_info"]
  | DataModelCategory.RESOURCE => ["id", "odata_context", "description", "name"]
  | DataModelCategory.COLLECTION =>
    ["id", "odata_context", "description", "name", "members_odata_next_link"]
  | DataModelCategory.UNKNOWN => []

/-- The declared shape of a draft field: a scalar, a reference to another
definition (bare, list-of, mapping-of or optional-of, identified by the
`type_hint` strings `Name`, `List[Name]`, `Dict[Name]`, `Optional[Name]`
compared by `Parser._clean_up_models`), or a canonical base type produced
by `Parser._get_data_type` (category plus preserved wrapper shape). -/
inductive FieldShape where
  | scalar : String → FieldShape
  | ref : String → FieldShape
  | listOf : String → FieldShape
  | dictOf : String → FieldShape
  | optionalOf : String → FieldShape
  | custom : DataModelCategory → Option String → Bool → FieldShape
deriving DecidableEq, Repr

/-- Model of `field.type_hint`: the rendered type annotation that
`Parser._clean_up_models` compares against. -/
def typeHint : FieldShape → String
  | FieldShape.scalar t => t
  | FieldShape.ref n => n
  | FieldShape.listOf n => "List[" ++ n ++ "]"
  | FieldShape.dictOf n => "Dict[" ++ n ++ "]"
  | FieldShape.optionalOf n => "Optional[" ++ n ++ "]"
  | FieldShape.custom cat coll opt =>
    let base := categoryValue cat
    let base := match coll with
      | some "List" => "List[" ++ base ++ "]"
      | some "Dict" => "Dict[" ++ base ++ "]"
      | _ => base
    if opt then "Optional[" ++ base ++ "]" else base

/-- A draft field: a (canonicalized) name, its declared shape, and an
optional literal default value. -/
structure PField where
  name : String
  shape : FieldShape
  default : Option String := none
deriving DecidableEq, Repr

/-- A draft type definition produced by the schema-to-types primitive:
name, ordered fields, base classes (by name), attached methods and an
optional description. -/
structure PModel where
  name : String
  fields : List PField
  baseClasses : List String
  methods : List String
  description : Option String := none
deriving DecidableEq, Repr

/-- Model of `CustomDataModel._replace_words`, applied in order to field names. -/
def replaceWords : List (String × String) :=
  [("_odata_id", "odata_id"),
   ("_odata_context", "odata_context"),
   ("_odata_type", "odata_type"),
   ("__redfish__action_info", "redfish_action_info"),
   ("__", "_")]

/-- Model of `CustomDataModel.process_fields`: canonicalize one field name through
the replacement table. -/
def processName (n : String) : String :=
  replaceWords.foldl (fun s p => strReplace s p.1 p.2) n

/-- Model of `CustomDataModel.process_fields` over a field list. -/
def processFields (fs : List PField) : List PField :=
  fs.map (fun f => { f with name := processName f.name })

/-- Model of `CustomDataModel._fields_are_present`: all the given names occur among
the model's field names. -/
def fieldsArePresent (m : PModel) (names : List String) : Bool :=
  names.all (fun n => (m.fields.map PField.name).contains n)

/-- Model of `CustomDataModel.category`: fold over `category_fields` in dict order,
keeping the last matching category (`UNKNOWN` when none matches). -/
def pmCategory (m : PModel) : DataModelCategory :=
  categoryFields.foldl
    (fun c p => if fieldsArePresent m p.2 then p.1 else c)
    DataModelCategory.UNKNOWN

/-- Model of `Parser._get_data_type` rendered as a field shape: the canonical base
type from `.common` with the requested wrapper flags. -/
def getDataTypeShape (cat : DataModelCategory) (collection : Option String)
    (isOptional : Bool) : FieldShape :=
  FieldShape.custom cat collection isOptional

/-- The four sequential `type_hint` rewrites of `Parser._clean_up_models`
applied to one field of a non-target model (each test re-reads the field's
current hint, as the source re-reads `field.type_hint` after assigning
`field.data_type`). -/
def rewriteField (names listNames dictNames optiNames : List String)
    (cat : DataModelCategory) (f : PField) : PField :=
  let f := if names.contains (typeHint f.shape) then
    { f with shape := getDataTypeShape cat none false } else f
  let f := if listNames.contains (typeHint f.shape) then
    { f with shape := getDataTypeShape cat (some "List") false } else f
  let f := if dictNames.contains (typeHint f.shape) then
    { f with shape := getDataTypeShape cat (some "Dict") false } else f
  if optiNames.contains (typeHint f.shape) then
    { f with shape := getDataTypeShape cat none true } else f

/-- Model of `Parser._clean_up_models`: when some definitions have the given
category, those definitions are removed and every other definition's
fields that referenced them (bare, `List[...]`, `Dict[...]` or
`Optional[...]`) are rewritten to the canonical base type, preserving the
wrapper; with no target the list is returned unchanged. -/
def cleanUpModels (models : List PModel) (cat : DataModelCategory) : List PModel :=
  let targets := models.filter (fun m => pmCategory m == cat)
  if targets.length != 0 then
    let names := targets.map PModel.name
    let listNames := targets.map (fun t => "List[" ++ t.name ++ "]")
    let dictNames := targets.map (fun t => "Dict[" ++ t.name ++ "]")
    let optiNames := targets.map (fun t => "Optional[" ++ t.name ++ "]")
    (models.filter (fun m => pmCategory m != cat)).map
      (fun m => { m with
        fields := m.fields.map (rewriteField names listNames dictNames optiNames cat) })
  else models

/-- Model of `Parser._update_classes`: every definition of the given category has
the category's required and optional fields removed and its base classes
replaced by the canonical base type; other definitions pass through
unchanged (the source's `_additional_imports` bookkeeping is not
modelled); with no target the list is returned unchanged. -/
def updateClasses (models : List PModel) (cat : DataModelCategory) : List PModel :=
  let targets := models.filter (fun m => pmCategory m == cat)
  if targets.length != 0 then
    let fieldsToRemove := requiredFields cat ++ optionalFields cat
    models.map (fun m =>
      if pmCategory m == cat then
        { m with
          fields := m.fields.filter (fun f => !fieldsToRemove.contains f.name),
          baseClasses := [categoryValue cat] }
      else m)
  else models

/-- The `resource` accessor text attached by
`Parser._update_collection_methods`. -/
def resourceMethod (child : String) : String :=
  "@classmethod def resource(cls) -> Type[" ++ child ++ "]: return " ++ child

/-- Model of `Parser._update_collection_methods`: when a child node was supplied,
the Collection definition matching the scanned node's full name gains the
element-type accessor. -/
def updateCollectionMethods (full : String) (child : Option String)
    (models : List PModel) : List PModel :=
  match child with
  | none => models
  | some c =>
    models.map (fun m =>
      if pmCategory m == DataModelCategory.COLLECTION && m.name == full then
        { m with methods := m.methods ++ [resourceMethod c] }
      else m)

/-- Model of `Parser._update_description`: attach the node's derived description to
the definition named exactly `full_name`. -/
def updateDescription (full : String) (descr : Option String)
    (models : List PModel) : List PModel :=
  match descr with
  | none => models
  | some d =>
    models.map (fun m => if m.name == full then { m with description := some d } else m)

/-- Model of `Parser._update_url`: insert the hidden `_url` field, whose default is
the node's source URI, at position 0 of the root definition. -/
def updateUrl (full uri : String) (models : List PModel) : List PModel :=
  models.map (fun m =>
    if m.name == full then
      { m with fields := ⟨"_url", FieldShape.scalar "str", some uri⟩ :: m.fields }
    else m)

/-- Model of `Parser._update_root_model_name`: rename the definition whose
lower-cased name matches the node's lower-cased full name to exactly the
full name. -/
def updateRootModelName (full : String) (models : List PModel) : List PModel :=
  models.map (fun m => if lowerS m.name == lowerS full then { m with name := full } else m)

/-- Model of `Parser._get_data_models`: the normalization pipeline applied in
source order to the draft definitions (`full`/`descr`/`uri` come from the
scanned node, `child` from the optionally paired child node). -/
def getDataModels (full : String) (descr : Option String) (uri : String)
    (child : Option String) (models : List PModel) : List PModel :=
  let models := updateCollectionMethods full child models
  let models := cleanUpModels models DataModelCategory.LINK
  let models := cleanUpModels models DataModelCategory.ACTION
  let models := updateClasses models DataModelCategory.RESOURCE
  let models := updateClasses models DataModelCategory.COLLECTION
  let models := updateDescription full descr models
  let models := updateUrl full uri models
  updateRootModelName full models

/-- Python string `<`: lexicographic comparison by code point. -/
def listCharLt : List Char → List Char → Bool
  | [], [] => false
  | [], _ :: _ => true
  | _ :: _, [] => false
  | a :: as, b :: bs =>
    if Nat.blt a.toNat b.toNat then true
    else if Nat.blt b.toNat a.toNat then false
    else listCharLt as bs

/-- Python string `<` on `String`. -/
def strLtB (a b : String) : Bool := listCharLt a.data b.data

/-- Lexicographic strict order on lists of strings (Python list `<`). -/
def listStrLtB : List String → List String → Bool
  | [], [] => false
  | [], _ :: _ => true
  | _ :: _, [] => false
  | a :: as, b :: bs =>
    if strLtB a b then true else if strLtB b a then false else listStrLtB as bs

/-- Python tuple `<` on `(unit_key, exported names)` manifest entries. -/
def pairLt (x y : String × List String) : Bool :=
  if strLtB x.1 y.1 then true
  else if strLtB y.1 x.1 then false
  else listStrLtB x.2 y.2

/-- Stable insertion into an ascending list: the inserted element passes
only strictly smaller elements, so original order is kept among ties. -/
def insertStable (lt : α → α → Bool) (x : α) : List α → List α
  | [] => [x]
  | y :: ys => if lt y x then y :: insertStable lt x ys else x :: y :: ys

/-- Python's stable ascending `list.sort()`. -/
def sortStable (lt : α → α → Bool) : List α → List α
  | [] => []
  | x :: xs => insertStable lt x (sortStable lt xs)

/-- Model of `", ".join(classes)`. -/
def joinComma : List String → String
  | [] => ""
  | [x] => x
  | x :: xs => x ++ ", " ++ joinComma xs

/-- The `__all__` line-wrapping loop of `FileProcessor._prepare_init_file`:
state is (emitted text, current line); a name that would push the current
line past 120 characters flushes the line and resets it (the source adds
no name in that branch). -/
def wrapStep (pr : String × String) (c : String) : String × String :=
  if pr.2.length + c.length > 120 then (pr.1 ++ pr.2 ++ "\n", "\t")
  else (pr.1, pr.2 ++ "\x22" ++ c ++ "\x22, ")

/-- Model of `FileProcessor._prepare_init_file`: sort the manifest entries, emit the
`__all__` list of exported names (line-wrapped at 120 characters), then
one import statement per unit listing that unit's names. -/
def prepareInitContent (data : List (String × List String)) : String :=
  let data := sortStable pairLt data
  let classes := data.foldl (fun acc p => acc ++ p.2) ([] : List String)
  let pr := classes.foldl wrapStep ("__all__ = [\n", "\t")
  let result := if pr.2 != "\t" then pr.1 ++ pr.2 ++ "\n" else pr.1
  let result := result ++ "]\n\n"
  data.foldl (fun res p => res ++ "from ." ++ p.1 ++ " import " ++ joinComma p.2 ++ "\n")
    result

/-- The exported names of the manifest (what the spec says `__all__` must
enumerate): all unit names, in manifest order after sorting. -/
def allExportedNames (data : List (String × List String)) : List String :=
  (sortStable pairLt data).foldl (fun acc p => acc ++ p.2) ([] : List String)

/-- How one `scan_models` call may evolve the traversal state: the visited
set and the discovered collection only grow at the end, full-name
distinctness of the discovered collection is preserved, and the node
budget `N` is never exceeded. -/
def StateEvolve (N : Nat) (st r : ScanState) : Prop :=
  (∃ t, r.scanned = st.scanned ++ t) ∧
  (∃ t, r.redfish = st.redfish ++ t) ∧
  ((st.redfish.map RModel.full_name).Nodup → (r.redfish.map RModel.full_name).Nodup) ∧
  (st.redfish.length ≤ N → r.redfish.length ≤ N)

/-- The `random.sample(population, k)` contract: `k` distinct in-range
positions (uniformity of the distribution is not representable in a
deterministic embedding; every theorem below holds for every sampler
satisfying this contract). -/
def SamplerOk (smp : Nat → Nat → List Nat) : Prop :=
  ∀ n k, k ≤ n → (smp n k).length = k ∧ (smp n k).Nodup ∧ ∀ i ∈ smp n k, i < n

/-- The member entries of a `Members` list that the scanner follows: the
sampled positions when the list exceeds the width cap, the whole list
otherwise. -/
def followedMembers (smp : Nat → Nat → List Nat) (W : Nat) (ms : List Json) : List Json :=
  if ms.length > W then (smp ms.length W).filterMap (fun i => ms[i]?) else ms

/-- The URIs the network answers (the graph's key set). -/
def keysOf (g : List (String × Json)) : Finset String :=
  (g.map Prod.fst).toFinset

/-- How many fetchable URIs have not been visited yet. -/
def remainingCount (g : List (String × Json)) (sc : List String) : Nat :=
  ((keysOf g).filter (fun u => u ∉ sc)).card

/-- Sufficient recursion depth for a scan of graph `g` from a fresh state. -/
def scanBound (g : List (String × Json)) : Nat :=
  remainingCount g [] + 1

/-- A sampler taking the first `k` positions; it satisfies `SamplerOk`. -/
def rangeSampler : Nat → Nat → List Nat := fun _ k => List.range k

/-- The entry instance of the spec's Chassis scenario. -/
def chassisJson : Json :=
  Json.obj [("@odata.type", Json.str "#Chassis.v1.Chassis"),
            ("@odata.id", Json.str "/c/1"),
            ("Name", Json.str "Main")]

/-- A one-resource graph serving the Chassis instance at its own URI. -/
def chassisGraph : List (String × Json) := [("/c/1", chassisJson)]

/-- A fetched instance whose derived name is `X`. -/
def dataX : Json := Json.obj [("@odata.type", Json.str "#X.X")]

/-- A parent node named `X`. -/
def parentX : RModel := RModel.mk "X" Json.null "/p" none

/-- A one-resource graph serving `dataX`. -/
def graphX : List (String × Json) := [("/a", dataX)]

/-- A draft definition with the Collection required fields. -/
def collModel0 : PModel :=
  { name := "FooCollection",
    fields := [⟨"odata_id", FieldShape.scalar "str", none⟩,
               ⟨"odata_type", FieldShape.scalar "str", none⟩,
               ⟨"members_odata_count", FieldShape.scalar "int", none⟩,
               ⟨"members", FieldShape.listOf "Link", none⟩],
    baseClasses := ["pydantic.BaseModel"], methods := [], description := none }

/-- A draft definition with a field referencing `collModel0`. -/
def otherModel0 : PModel :=
  { name := "Other",
    fields := [⟨"stuff", FieldShape.ref "FooCollection", none⟩],
    baseClasses := ["pydantic.BaseModel"], methods := [], description := none }

/-- A 116-character exported name, filling an `__all__` line. -/
def longNameA : String := String.mk (List.replicate 116 'A')

/-- A manifest whose second unit's name lands exactly on a wrap boundary. -/
def initData8 : List (String × List String) :=
  [("a", [longNameA]), ("b", ["B"]), ("common", ["DataManager"])]

theorem evolve_refl (N : Nat) (st : ScanState) : StateEvolve N st st :=
  ⟨⟨[], by simp⟩, ⟨[], by simp⟩, fun h => h, fun h => h⟩

theorem evolve_trans {N : Nat} {s1 s2 s3 : ScanState}
    (h12 : StateEvolve N s1 s2) (h23 : StateEvolve N s2 s3) : StateEvolve N s1 s3 := by
  obtain ⟨⟨t1, ht1⟩, ⟨u1, hu1⟩, hn1, hl1⟩ := h12
  obtain ⟨⟨t2, ht2⟩, ⟨u2, hu2⟩, hn2, hl2⟩ := h23
  refine ⟨⟨t1 ++ t2, ?_⟩, ⟨u1 ++ u2, ?_⟩, fun h => hn2 (hn1 h), fun h => hl2 (hl1 h)⟩
  · rw [ht2, ht1, List.append_assoc]
  · rw [hu2, hu1, List.append_assoc]

theorem registerModel_scanned (st : ScanState) (m : RModel) :
    (registerModel st m).scanned = st.scanned := by
  unfold registerModel; split <;> rfl

theorem registerModel_problems (st : ScanState) (m : RModel) :
    (registerModel st m).problems = st.problems := by
  unfold registerModel; split <;> rfl

theorem registerModel_redfish (st : ScanState) (m : RModel) :
    ∃ t, (registerModel st m).redfish = st.redfish ++ t := by
  unfold registerModel; split
  · exact ⟨[], by simp⟩
  · exact ⟨[m], rfl⟩

theorem memModel_iff (l : List RModel) (m : RModel) :
    memModel l m = true ↔ ∃ x ∈ l, x.full_name = m.full_name := by
  unfold memModel modelEq
  rw [List.any_eq_true]
  constructor
  · rintro ⟨x, hx, hbeq⟩
    exact ⟨x, hx, (eq_of_beq hbeq).symm⟩
  · rintro ⟨x, hx, heq⟩
    exact ⟨x, hx, beq_iff_eq.mpr heq.symm⟩

theorem registerModel_nodup {st : ScanState} {m : RModel}
    (h : (st.redfish.map RModel.full_name).Nodup) :
    ((registerModel st m).redfish.map RModel.full_name).Nodup := by
  unfold registerModel; split
  · exact h
  · next hmem =>
    have : ¬ ∃ x ∈ st.redfish, x.full_name = m.full_name := by
      rw [← memModel_iff]; simpa using hmem
    simp only [List.map_append, List.map_cons, List.map_nil]
    rw [List.nodup_append]
    refine ⟨h, List.nodup_singleton _, ?_⟩
    intro a ha
    simp only [List.mem_map] at ha
    obtain ⟨x, hx, hxa⟩ := ha
    simp only [List.mem_singleton]
    intro ham
    exact this ⟨x, hx, by rw [hxa, ham]⟩

theorem registerModel_length {st : ScanState} {m : RModel} :
    (registerModel st m).redfish.length ≤ st.redfish.length + 1 := by
  unfold registerModel; split
  · exact Nat.le_succ _
  · simp

theorem regStep_scanned (st : ScanState) (mo : Option RModel) :
    (regStep st mo).scanned = st.scanned := by
  cases mo with
  | none => rfl
  | some m => exact registerModel_scanned st m

theorem regStep_redfish (st : ScanState) (mo : Option RModel) :
    ∃ t, (regStep st mo).redfish = st.redfish ++ t := by
  cases mo with
  | none => exact ⟨[], by simp [regStep]⟩
  | some m => exact registerModel_redfish st m

theorem regStep_nodup {st : ScanState} (mo : Option RModel)
    (h : (st.redfish.map RModel.full_name).Nodup) :
    ((regStep st mo).redfish.map RModel.full_name).Nodup := by
  cases mo with
  | none => exact h
  | some m => exact registerModel_nodup h

theorem regStep_length {st : ScanState} (mo : Option RModel) :
    (regStep st mo).redfish.length ≤ st.redfish.length + 1 := by
  cases mo with
  | none => exact Nat.le_succ _
  | some m => exact registerModel_length

theorem addProblem_evolve (N : Nat) (st : ScanState) (e t : String) :
    StateEvolve N st (addProblem st e t) :=
  ⟨⟨[], by simp [addProblem]⟩, ⟨[], by simp [addProblem]⟩, fun h => h, fun h => h⟩

theorem scanModels_zero (g : List (String × Json)) (smp : Nat → Nat → List Nat)
    (N W : Nat) (e : String) (p : Option RModel) (st : ScanState) :
    scanModels g smp N W 0 e p st = st := by
  simp [scanModels]

theorem scanModels_succ (g : List (String × Json)) (smp : Nat → Nat → List Nat)
    (N W f : Nat) (e : String) (p : Option RModel) (st : ScanState) :
    scanModels g smp N W (f + 1) e p st =
      if st.redfish.length < N then
        if !st.scanned.contains e && !hasJsonschemas e then
          scanVisit g smp N W f e p { st with scanned := st.scanned ++ [e] }
        else st
      else st := by
  simp only [scanModels]

theorem scanChildren_nil (g : List (String × Json)) (smp : Nat → Nat → List Nat)
    (N W f : Nat) (p : Option RModel) (st : ScanState) :
    scanChildren g smp N W f [] p st = st := by
  simp [scanChildren]

theorem scanChildren_cons (g : List (String × Json)) (smp : Nat → Nat → List Nat)
    (N W f : Nat) (u : String) (us : List String) (p : Option RModel) (st : ScanState) :
    scanChildren g smp N W f (u :: us) p st =
      scanChildren g smp N W f us p
        (if st.scanned.contains u then st else scanModels g smp N W f u p st) := by
  simp only [scanChildren]

theorem scanVisit_none {g : List (String × Json)} {e : String}
    (smp : Nat → Nat → List Nat) (N W f : Nat) (p : Option RModel) (st : ScanState)
    (hl : lookupG g e = none) :
    scanVisit g smp N W f e p st = addProblem st e (fetchErrText e) := by
  simp [scanVisit, hl]

theorem scanVisit_some {g : List (String × Json)} {e : String} {data : Json}
    (smp : Nat → Nat → List Nat) (N W f : Nat) (p : Option RModel) (st : ScanState)
    (hl : lookupG g e = some data) :
    scanVisit g smp N W f e p st = scanData g smp N W f e p data st := by
  simp [scanVisit, hl]

theorem scanData_err {data : Json} {u : Unit} (g : List (String × Json))
    (smp : Nat → Nat → List Nat) (N W f : Nat) (e : String) (p : Option RModel)
    (st : ScanState) (hm : getModelName data = Except.error u) :
    scanData g smp N W f e p data st = addProblem st e (nameErrText e) := by
  simp [scanData, hm]

theorem scanData_ok {data : Json} {nameOpt : Option String} (g : List (String × Json))
    (smp : Nat → Nat → List Nat) (N W f : Nat) (e : String) (p : Option RModel)
    (st : ScanState) (hm : getModelName data = Except.ok nameOpt) :
    scanData g smp N W f e p data st =
      scanNamed g smp N W f e data (mkModelOpt p nameOpt data e) st := by
  simp [scanData, hm]

theorem scanNamed_err {smp : Nat → Nat → List Nat} {W : Nat} {data : Json} {u : Unit}
    (g : List (String × Json)) (N f : Nat) (e : String) (mo : Option RModel)
    (st : ScanState) (hu : getUris smp W data = Except.error u) :
    scanNamed g smp N W f e data mo st =
      addProblem (regStep st mo) e (urisErrText e) := by
  simp [scanNamed, hu]

theorem scanNamed_ok {smp : Nat → Nat → List Nat} {W : Nat} {data : Json}
    {uris : List String} (g : List (String × Json)) (N f : Nat) (e : String)
    (mo : Option RModel) (st : ScanState) (hu : getUris smp W data = Except.ok uris) :
    scanNamed g smp N W f e data mo st =
      scanChildren g smp N W f uris mo (regStep st mo) := by
  simp [scanNamed, hu]

theorem scanChildren_evolve {g : List (String × Json)} {smp : Nat → Nat → List Nat}
    {N W f : Nat}
    (h : ∀ e p st, StateEvolve N st (scanModels g smp N W f e p st)) :
    ∀ us p st, StateEvolve N st (scanChildren g smp N W f us p st) := by
  intro us
  induction us with
  | nil =>
    intro p st
    rw [scanChildren_nil]
    exact evolve_refl N st
  | cons u tl ih =>
    intro p st
    rw [scanChildren_cons]
    by_cases hc : st.scanned.contains u
    · simp only [hc, if_true]
      exact ih p st
    · simp only [hc, if_false]
      exact evolve_trans (h u p st) (ih p _)

theorem scanNamed_evolve {g : List (String × Json)} {smp : Nat → Nat → List Nat}
    {N W f : Nat} {e : String} {data : Json} {mo : Option RModel} {st : ScanState}
    (hch : ∀ us q s, StateEvolve N s (scanChildren g smp N W f us q s))
    (hlt : st.redfish.length < N) :
    StateEvolve N st (scanNamed g smp N W f e data mo st) := by
  have hreg : StateEvolve N st (regStep st mo) := by
    refine ⟨⟨[], by simp [regStep_scanned]⟩, regStep_redfish st mo,
      regStep_nodup mo, fun _ => ?_⟩
    exact le_trans (regStep_length mo) (by omega)
  cases hu : getUris smp W data with
  | error u =>
    rw [scanNamed_err g N f e mo st hu]
    exact evolve_trans hreg (addProblem_evolve N _ e (urisErrText e))
  | ok uris =>
    rw [scanNamed_ok g N f e mo st hu]
    exact evolve_trans hreg (hch uris mo (regStep st mo))

theorem scanVisit_evolve {g : List (String × Json)} {smp : Nat → Nat → List Nat}
    {N W f : Nat} {e : String} {p : Option RModel} {st : ScanState}
    (hch : ∀ us q s, StateEvolve N s (scanChildren g smp N W f us q s))
    (hlt : st.redfish.length < N) :
    StateEvolve N st (scanVisit g smp N W f e p st) := by
  cases hl : lookupG g e with
  | none =>
    rw [scanVisit_none smp N W f p st hl]
    exact addProblem_evolve N st e (fetchErrText e)
  | some data =>
    rw [scanVisit_some smp N W f p st hl]
    cases hm : getModelName data with
    | error u =>
      rw [scanData_err g smp N W f e p st hm]
      exact addProblem_evolve N st e (nameErrText e)
    | ok nameOpt =>
      rw [scanData_ok g smp N W f e p st hm]
      exact scanNamed_evolve hch hlt

theorem scanModels_evolve (g : List (String × Json)) (smp : Nat → Nat → List Nat)
    (N W : Nat) : ∀ f e p st, StateEvolve N st (scanModels g smp N W f e p st) := by
  intro f
  induction f with
  | zero =>
    intro e p st
    rw [scanModels_zero]
    exact evolve_refl N st
  | succ f ih =>
    intro e p st
    rw [scanModels_succ]
    by_cases h1 : st.redfish.length < N
    · simp only [h1, if_true]
      by_cases h2 : (!st.scanned.contains e && !hasJsonschemas e) = true
      · simp only [h2, if_true]
        have hst1 : StateEvolve N st { st with scanned := st.scanned ++ [e] } :=
          ⟨⟨[e], rfl⟩, ⟨[], by simp⟩, fun h => h, fun h => h⟩
        exact evolve_trans hst1 (scanVisit_evolve (scanChildren_evolve ih) h1)
      · simp only [h2, if_false]
        exact evolve_refl N st
    · simp only [h1, if_false]
      exact evolve_refl N st

theorem lookup_mem_keys {g : List (String × Json)} {u : String} {d : Json}
    (h : lookupG g u = some d) : u ∈ keysOf g := by
  unfold keysOf
  rw [List.mem_toFinset]
  induction g with
  | nil => simp [lookupG] at h
  | cons p tl ih =>
    obtain ⟨k, v⟩ := p
    unfold lookupG at h
    by_cases hk : (k == u) = true
    · simp only [List.map_cons, List.mem_cons]
      exact Or.inl (eq_of_beq hk).symm
    · simp only [hk] at h
      simp only [Bool.false_eq_true, if_false] at h
      exact List.mem_cons_of_mem _ (ih h)

theorem remaining_mono {g : List (String × Json)} {sc sc' : List String}
    (h : ∀ x ∈ sc, x ∈ sc') : remainingCount g sc' ≤ remainingCount g sc := by
  unfold remainingCount
  apply Finset.card_le_card
  intro x hx
  rw [Finset.mem_filter] at hx ⊢
  exact ⟨hx.1, fun hmem => hx.2 (h x hmem)⟩

theorem remaining_strict {g : List (String × Json)} {sc : List String} {e : String}
    (hk : e ∈ keysOf g) (hv : e ∉ sc) :
    remainingCount g (sc ++ [e]) < remainingCount g sc := by
  unfold remainingCount
  apply Finset.card_lt_card
  rw [Finset.ssubset_iff_of_subset]
  · refine ⟨e, ?_, ?_⟩
    · rw [Finset.mem_filter]; exact ⟨hk, hv⟩
    · rw [Finset.mem_filter]
      rintro ⟨-, hne⟩
      exact hne (List.mem_append_right _ (List.mem_singleton_self e))
  · intro x hx
    rw [Finset.mem_filter] at hx ⊢
    exact ⟨hx.1, fun hmem => hx.2 (List.mem_append_left _ hmem)⟩

theorem scanChildren_fuel {g : List (String × Json)} {smp : Nat → Nat → List Nat}
    {N W f : Nat}
    (hm : ∀ e p st, remainingCount g st.scanned < f →
      scanModels g smp N W (f + 1) e p st = scanModels g smp N W f e p st) :
    ∀ us p st, remainingCount g st.scanned < f →
      scanChildren g smp N W (f + 1) us p st = scanChildren g smp N W f us p st := by
  intro us
  induction us with
  | nil =>
    intro p st _
    rw [scanChildren_nil, scanChildren_nil]
  | cons u tl ih =>
    intro p st h
    rw [scanChildren_cons, scanChildren_cons]
    by_cases hc : st.scanned.contains u
    · simp only [hc, if_true]
      exact ih p st h
    · have hcc : st.scanned.contains u = false := by simpa using hc
      simp only [hcc, Bool.false_eq_true, if_false]
      rw [hm u p st h]
      apply ih
      obtain ⟨⟨t, ht⟩, -, -, -⟩ := scanModels_evolve g smp N W f u p st
      have hle : remainingCount g (scanModels g smp N W f u p st).scanned ≤
          remainingCount g st.scanned := by
        apply remaining_mono
        rw [ht]
        intro x hx
        exact List.mem_append_left _ hx
      omega

theorem scanModels_fuel (g : List (String × Json)) (smp : Nat → Nat → List Nat)
    (N W : Nat) :
    ∀ f e p st, remainingCount g st.scanned < f →
      scanModels g smp N W (f + 1) e p st = scanModels g smp N W f e p st := by
  intro f
  induction f with
  | zero =>
    intro e p st h
    exact absurd h (Nat.not_lt_zero _)
  | succ f ih =>
    intro e p st h
    rw [scanModels_succ, scanModels_succ]
    by_cases h1 : st.redfish.length < N
    · by_cases h2 : (!st.scanned.contains e && !hasJsonschemas e) = true
      · simp only [h1, h2, if_true]
        cases hl : lookupG g e with
        | none =>
          rw [scanVisit_none smp N W (f + 1) p _ hl, scanVisit_none smp N W f p _ hl]
        | some data =>
          rw [scanVisit_some smp N W (f + 1) p _ hl, scanVisit_some smp N W f p _ hl]
          cases hmn : getModelName data with
          | error u =>
            rw [scanData_err g smp N W (f + 1) e p _ hmn,
                scanData_err g smp N W f e p _ hmn]
          | ok nameOpt =>
            rw [scanData_ok g smp N W (f + 1) e p _ hmn,
                scanData_ok g smp N W f e p _ hmn]
            cases hu : getUris smp W data with
            | error u =>
              rw [scanNamed_err g N (f + 1) e _ _ hu, scanNamed_err g N f e _ _ hu]
            | ok uris =>
              rw [scanNamed_ok g N (f + 1) e _ _ hu, scanNamed_ok g N f e _ _ hu]
              apply scanChildren_fuel ih
              have he : e ∈ keysOf g := lookup_mem_keys hl
              have hv : e ∉ st.scanned := by
                have : st.scanned.contains e = false := by
                  rcases Bool.and_eq_true _ _ |>.mp h2 with ⟨hbl, -⟩
                  simpa using hbl
                simpa using this
              have hstr : remainingCount g (st.scanned ++ [e]) <
                  remainingCount g st.scanned := remaining_strict he hv
              rw [regStep_scanned]
              simp only []
              omega
      · have hb : (!st.scanned.contains e && !hasJsonschemas e) = false := by
          simpa using h2
        simp only [hb, Bool.false_eq_true, if_false]
    · have hb : ¬ st.redfish.length < N := h1
      simp only [hb, if_false]

theorem scanModels_stable (g : List (String × Json)) (smp : Nat → Nat → List Nat)
    (N W : Nat) :
    ∀ k f e p st, remainingCount g st.scanned < f →
      scanModels g smp N W (f + k) e p st = scanModels g smp N W f e p st := by
  intro k
  induction k with
  | zero => intro f e p st _; rfl
  | succ k ih =>
    intro f e p st h
    have step : scanModels g smp N W (f + k + 1) e p st
        = scanModels g smp N W (f + k) e p st :=
      scanModels_fuel g smp N W (f + k) e p st (by omega)
    calc scanModels g smp N W (f + (k + 1)) e p st
        = scanModels g smp N W (f + k + 1) e p st := rfl
      _ = scanModels g smp N W (f + k) e p st := step
      _ = scanModels g smp N W f e p st := ih f e p st h

theorem scanModels_budget (g : List (String × Json)) (smp : Nat → Nat → List Nat)
    (N W f : Nat) (e : String) (p : Option RModel) (st : ScanState)
    (h : N ≤ st.redfish.length) : scanModels g smp N W f e p st = st := by
  cases f with
  | zero => exact scanModels_zero g smp N W e p st
  | succ f =>
    rw [scanModels_succ]
    have hb : ¬ st.redfish.length < N := by omega
    simp only [hb, if_false]

/-- C1: for every resource graph (finite URI table; cyclic references give
an infinite unfolding), a scan from any entry URI with node budget `N`
terminates — the result is fuel-independent once the recursion depth
reaches `scanBound g` — the discovered collection never exceeds `N`
nodes (in particular from the fresh initial state), and a frame entered
with the budget already reached returns the state unchanged instead of
raising. -/
theorem scan_terminates_and_respects_budget (g : List (String × Json))
    (smp : Nat → Nat → List Nat) (N W : Nat) (entry : String) :
    (∀ f, scanBound g ≤ f →
        scanModels g smp N W f entry none initState
          = scanModels g smp N W (scanBound g) entry none initState) ∧
    (∀ f st, st.redfish.length ≤ N →
        (scanModels g smp N W f entry none st).redfish.length ≤ N) ∧
    (∀ f, (scanModels g smp N W f entry none initState).redfish.length ≤ N) ∧
    (∀ f st, N ≤ st.redfish.length → scanModels g smp N W f entry none st = st) := by
  have hrem : remainingCount g initState.scanned < scanBound g := by
    have h1 : initState.scanned = ([] : List String) := rfl
    rw [h1]
    unfold scanBound
    omega
  refine ⟨?_, ?_, ?_, ?_⟩
  · intro f hf
    have hs := scanModels_stable g smp N W (f - scanBound g) (scanBound g)
      entry none initState hrem
    rw [Nat.add_sub_cancel' hf] at hs
    exact hs
  · intro f st h
    exact (scanModels_evolve g smp N W f entry none st).2.2.2 h
  · intro f
    exact (scanModels_evolve g smp N W f entry none initState).2.2.2 (Nat.zero_le N)
  · intro f st h
    exact scanModels_budget g smp N W f entry none st h

theorem scan_terminates_and_respects_budget_witness :
    scanBound chassisGraph ≤ 5 ∧
    scanModels chassisGraph rangeSampler 2 50 5 "/c/1" none initState
      = scanModels chassisGraph rangeSampler 2 50 (scanBound chassisGraph)
          "/c/1" none initState ∧
    (0 : Nat) ≤ initState.redfish.length ∧
    scanModels chassisGraph rangeSampler 0 50 7 "/x" none initState = initState := by
  refine ⟨by decide, ?_, by decide, ?_⟩
  · exact (scan_terminates_and_respects_budget chassisGraph rangeSampler 2 50
      "/c/1").1 5 (by decide)
  · exact (scan_terminates_and_respects_budget chassisGraph rangeSampler 0 50
      "/x").2.2.2 7 initState (by decide)

/-- C2: node equality is decided by `full_name` alone (sample data, URI
and traversal position are ignored); the discovered collection of a scan
never holds two nodes with the same `full_name`; a node whose `full_name`
is already present is not appended (the first-discovered one is kept);
and the collection only ever grows by appending at the end, so earlier
discoveries keep their position. -/
theorem scan_dedup_by_full_name (g : List (String × Json))
    (smp : Nat → Nat → List Nat) (N W f : Nat) (entry : String) :
    (∀ a b : RModel, modelEq a b = true ↔ a.full_name = b.full_name) ∧
    ((scanModels g smp N W f entry none initState).redfish.map
        RModel.full_name).Nodup ∧
    (∀ st (m : RModel), memModel st.redfish m = true → registerModel st m = st) ∧
    (∀ p st, ∃ t, (scanModels g smp N W f entry p st).redfish = st.redfish ++ t) := by
  refine ⟨?_, ?_, ?_, ?_⟩
  · intro a b
    unfold modelEq
    rw [beq_iff_eq, eq_comm]
  · have h := (scanModels_evolve g smp N W f entry none initState).2.2.1
    exact h (by simp [initState])
  · intro st m h
    unfold registerModel
    simp [h]
  · intro p st
    exact (scanModels_evolve g smp N W f entry p st).2.1

theorem scan_dedup_by_full_name_witness :
    memModel [RModel.mk "X" Json.null "/other" none] parentX = true ∧
    registerModel ⟨[RModel.mk "X" Json.null "/other" none], ["/other"], []⟩ parentX
      = (⟨[RModel.mk "X" Json.null "/other" none], ["/other"], []⟩ : ScanState) ∧
    modelEq parentX (RModel.mk "X" chassisJson "/elsewhere" none) = true := by
  refine ⟨by decide, ?_, ?_⟩
  · exact (scan_dedup_by_full_name [] rangeSampler 1 1 1 "/x").2.2.1 _ parentX
      (by decide)
  · exact (scan_dedup_by_full_name [] rangeSampler 1 1 1 "/x").1 parentX
      (RModel.mk "X" chassisJson "/elsewhere" none) |>.mpr (by decide)

/-- C3 counterexample: a node named `X` with an empty sample — no
`collection` in its name, no parent, and neither `@odata.id` nor
`@odata.type` among its fields — classifies as Resource, not Unknown:
`RedfishData.category` has no Unknown branch and does not inspect the
marker fields. -/
theorem category_unknown_cex :
    RModel.category (RModel.mk "X" (Json.obj []) "/x" none) = RCategory.RESOURCE ∧
    isSubstrS "collection" (lowerS "X") = false ∧
    lookupField [] "@odata.id" = none ∧
    lookupField [] "@odata.type" = none ∧
    RCategory.RESOURCE ≠ RCategory.UNKNOWN := by
  refine ⟨by decide, by decide, rfl, rfl, by decide⟩

/-- C3 (amended): `RedfishData.category` is total over only three of the
four kinds.  A name containing `collection` (case-insensitively)
classifies as Collection; otherwise a node whose parent classifies as
Collection and whose name is a substring of the parent's name classifies
as Element; every other node — regardless of which fields its sample has
— classifies as Resource; Unknown is never returned (the field-based
Resource/Unknown distinction exists only in the Synthesizer's
`CustomDataModel.category`). -/
theorem category_rule_amended :
    (∀ m : RModel, isSubstrS "collection" (lowerS m.name) = true →
        m.category = RCategory.COLLECTION) ∧
    (∀ (n : String) (d : Json) (u : String) (p : RModel),
        isSubstrS "collection" (lowerS n) = false →
        p.category = RCategory.COLLECTION → isSubstrS n p.name = true →
        (RModel.mk n d u (some p)).category = RCategory.ELEMENT) ∧
    (∀ (n : String) (d : Json) (u : String),
        isSubstrS "collection" (lowerS n) = false →
        (RModel.mk n d u none).category = RCategory.RESOURCE) ∧
    (∀ (n : String) (d : Json) (u : String) (p : RModel),
        isSubstrS "collection" (lowerS n) = false →
        ¬ (p.category = RCategory.COLLECTION ∧ isSubstrS n p.name = true) →
        (RModel.mk n d u (some p)).category = RCategory.RESOURCE) ∧
    (∀ m : RModel, m.category ≠ RCategory.UNKNOWN) := by
  refine ⟨?_, ?_, ?_, ?_, ?_⟩
  · intro m h
    cases m with
    | mk n d u par =>
      have hn : RModel.name (RModel.mk n d u par) = n := rfl
      rw [hn] at h
      cases par <;> simp [RModel.category, h]
  · intro n d u p hcol hp hsub
    simp [RModel.category, hcol, hp, hsub]
  · intro n d u hcol
    simp [RModel.category, hcol]
  · intro n d u p hcol hne
    simp only [RModel.category, hcol, Bool.false_eq_true, if_false]
    rw [if_neg]
    intro hand
    rcases Bool.and_eq_true _ _ |>.mp hand with ⟨h1, h2⟩
    exact hne ⟨by simpa using h1, h2⟩
  · intro m
    cases m with
    | mk n d u par =>
      cases par with
      | none =>
        simp only [RModel.category]
        split <;> simp
      | some p =>
        simp only [RModel.category]
        split
        · simp
        · split <;> simp

theorem category_rule_amended_witness :
    isSubstrS "collection" (lowerS "DriveCollection") = true ∧
    RModel.category (RModel.mk "DriveCollection" Json.null "/dc" none)
      = RCategory.COLLECTION ∧
    RModel.category (RModel.mk "Drive" Json.null "/dc/1"
        (some (RModel.mk "DriveCollection" Json.null "/dc" none)))
      = RCategory.ELEMENT := by
  refine ⟨by decide, ?_, ?_⟩
  · exact category_rule_amended.1
      (RModel.mk "DriveCollection" Json.null "/dc" none) (by decide)
  · exact category_rule_amended.2.1 "Drive" Json.null "/dc/1"
      (RModel.mk "DriveCollection" Json.null "/dc" none) (by decide)
      (category_rule_amended.1
        (RModel.mk "DriveCollection" Json.null "/dc" none) (by decide))
      (by decide)

/-- C10: `CustomDataModel.category` iterates `category_fields` in dict
insertion order Link, Action, Resource, Collection and keeps the last
match, so a definition whose canonical field names include the
identity-link, type, member-count and member-list fields is categorized
as Collection even though Link's and Resource's required fields are all
present as well. -/
theorem pm_category_last_match (m : PModel) :
    (pmCategory m =
      if fieldsArePresent m (requiredFields DataModelCategory.COLLECTION) then
        DataModelCategory.COLLECTION
      else if fieldsArePresent m (requiredFields DataModelCategory.RESOURCE) then
        DataModelCategory.RESOURCE
      else if fieldsArePresent m (requiredFields DataModelCategory.ACTION) then
        DataModelCategory.ACTION
      else if fieldsArePresent m (requiredFields DataModelCategory.LINK) then
        DataModelCategory.LINK
      else DataModelCategory.UNKNOWN) ∧
    (fieldsArePresent m (requiredFields DataModelCategory.COLLECTION) = true →
      pmCategory m = DataModelCategory.COLLECTION) ∧
    (fieldsArePresent m (requiredFields DataModelCategory.COLLECTION) = true →
      fieldsArePresent m (requiredFields DataModelCategory.LINK) = true ∧
      fieldsArePresent m (requiredFields DataModelCategory.RESOURCE) = true) := by
  have hchar : pmCategory m =
      if fieldsArePresent m (requiredFields DataModelCategory.COLLECTION) then
        DataModelCategory.COLLECTION
      else if fieldsArePresent m (requiredFields DataModelCategory.RESOURCE) then
        DataModelCategory.RESOURCE
      else if fieldsArePresent m (requiredFields DataModelCategory.ACTION) then
        DataModelCategory.ACTION
      else if fieldsArePresent m (requiredFields DataModelCategory.LINK) then
        DataModelCategory.LINK
      else DataModelCategory.UNKNOWN := by
    simp only [pmCategory, categoryFields, requiredFields, List.foldl_cons, List.foldl_nil]
  have hsub : fieldsArePresent m (requiredFields DataModelCategory.COLLECTION) = true →
      fieldsArePresent m (requiredFields DataModelCategory.LINK) = true ∧
      fieldsArePresent m (requiredFields DataModelCategory.RESOURCE) = true := by
    intro h
    simp only [fieldsArePresent, requiredFields, List.all_eq_true] at h ⊢
    constructor
    · intro n hn
      simp only [List.mem_singleton] at hn
      subst hn
      exact h "odata_id" (by simp)
    · intro n hn
      simp only [List.mem_cons, List.mem_singleton] at hn
      rcases hn with h1 | h1 | h1
      · subst h1; exact h "odata_id" (by simp)
      · subst h1; exact h "odata_type" (by simp)
      · cases h1
  refine ⟨hchar, fun h => ?_, hsub⟩
  rw [hchar, if_pos h]

theorem pm_category_last_match_witness :
    fieldsArePresent collModel0 (requiredFields DataModelCategory.COLLECTION) = true ∧
    pmCategory collModel0 = DataModelCategory.COLLECTION ∧
    fieldsArePresent collModel0 (requiredFields DataModelCategory.LINK) = true ∧
    fieldsArePresent collModel0 (requiredFields DataModelCategory.RESOURCE) = true := by
  refine ⟨by decide, ?_, ?_⟩
  · exact (pm_category_last_match collModel0).2.1 (by decide)
  · exact (pm_category_last_match collModel0).2.2 (by decide)

theorem idxStep_none {smp : Nat → Nat → List Nat} {W : Nat} {ms : List Json} {i : Nat}
    (st : Except Unit (List String)) (h : ms[i]? = none) :
    idxStep smp W ms i st = st := by
  cases st with
  | error er => simp [idxStep]
  | ok acc =>
    simp only [idxStep]
    split
    · rfl
    · next e heq => rw [h] at heq; cases heq

theorem idxStep_some {smp : Nat → Nat → List Nat} {W : Nat} {ms : List Json} {i : Nat}
    {e : Json} (st : Except Unit (List String)) (h : ms[i]? = some e) :
    idxStep smp W ms i st = entryStep smp W e st := by
  cases st with
  | error er => simp [idxStep, entryStep]
  | ok acc =>
    simp only [idxStep, entryStep]
    split
    · next heq => rw [h] at heq; cases heq
    · next e' heq =>
      rw [h] at heq
      injection heq with he
      rw [he]

theorem members_as_direct (smp : Nat → Nat → List Nat) (W : Nat) (ms : List Json) :
    ∀ (idxs : List Nat) (st : Except Unit (List String)),
      getUrisMembers smp W ms idxs st
        = getUrisDirect smp W (idxs.filterMap (fun i => ms[i]?)) st := by
  intro idxs
  induction idxs with
  | nil => intro st; simp [getUrisMembers, getUrisDirect]
  | cons i is ih =>
    intro st
    cases h : ms[i]? with
    | none =>
      simp only [List.filterMap_cons, h]
      have h1 : getUrisMembers smp W ms (i :: is) st
          = getUrisMembers smp W ms is (idxStep smp W ms i st) := by
        simp [getUrisMembers]
      rw [h1, idxStep_none st h]
      exact ih st
    | some e =>
      simp only [List.filterMap_cons, h]
      have h1 : getUrisMembers smp W ms (i :: is) st
          = getUrisMembers smp W ms is (idxStep smp W ms i st) := by
        simp [getUrisMembers]
      have h2 : getUrisDirect smp W (e :: is.filterMap (fun i => ms[i]?)) st
          = getUrisDirect smp W (is.filterMap (fun i => ms[i]?)) (entryStep smp W e st) := by
        simp [getUrisDirect]
      rw [h1, h2, idxStep_some st h]
      exact ih _

theorem filterMap_getElem_length {ms : List Json} :
    ∀ idxs : List Nat, (∀ i ∈ idxs, i < ms.length) →
      (idxs.filterMap (fun i => ms[i]?)).length = idxs.length := by
  intro idxs
  induction idxs with
  | nil => intro _; rfl
  | cons i is ih =>
    intro h
    have hi : i < ms.length := h i (List.mem_cons_self i is)
    simp only [List.filterMap_cons, List.getElem?_eq_getElem hi]
    simp only [List.length_cons]
    rw [ih (fun j hj => h j (List.mem_cons_of_mem i hj))]

theorem rangeSampler_ok : SamplerOk rangeSampler := by
  intro n k hk
  refine ⟨List.length_range k, List.nodup_range k, fun i hi => ?_⟩
  exact lt_of_lt_of_le (List.mem_range.mp hi) hk

/-- C5: for every `Members` list of size `M` strictly above the width cap
`W`, the followed member entries are exactly `W`, chosen at distinct
positions (without replacement) — this holds for every sampler satisfying
the `random.sample` contract, uniformity of the distribution being
abstracted into that contract — and for `M ≤ W` every member entry is
followed; the `Members` step of `Scanner._get_uris` walks exactly the
`followedMembers` selection. -/
theorem width_bound (smp : Nat → Nat → List Nat) (W : Nat) (ms : List Json)
    (hs : SamplerOk smp) :
    (W < ms.length →
      (followedMembers smp W ms).length = W ∧ (smp ms.length W).Nodup) ∧
    (ms.length ≤ W → followedMembers smp W ms = ms) ∧
    (∀ acc, membersStep smp W "Members" (Json.arr ms) acc
        = getUrisDirect smp W (followedMembers smp W ms) (Except.ok acc)) := by
  refine ⟨?_, ?_, ?_⟩
  · intro h
    obtain ⟨hlen, hnd, hlt⟩ := hs ms.length W (le_of_lt h)
    have hgt : ms.length > W := h
    constructor
    · unfold followedMembers
      rw [if_pos hgt, filterMap_getElem_length _ hlt, hlen]
    · exact hnd
  · intro h
    unfold followedMembers
    rw [if_neg (by omega)]
  · intro acc
    have hmem : membersStep smp W "Members" (Json.arr ms) acc =
        if ms.length > W then getUrisMembers smp W ms (smp ms.length W) (Except.ok acc)
        else getUrisDirect smp W ms (Except.ok acc) := by
      simp [membersStep]
    rw [hmem]
    by_cases hgt : ms.length > W
    · rw [if_pos hgt, members_as_direct]
      unfold followedMembers
      rw [if_pos hgt]
    · rw [if_neg hgt]
      unfold followedMembers
      rw [if_neg hgt]

theorem width_bound_witness :
    (2 : Nat) < [Json.null, Json.num 1, Json.num 2].length ∧
    (followedMembers rangeSampler 2 [Json.null, Json.num 1, Json.num 2]).length = 2 ∧
    followedMembers rangeSampler 5 [Json.null] = [Json.null] := by
  refine ⟨by decide, ?_, ?_⟩
  · exact ((width_bound rangeSampler 2 [Json.null, Json.num 1, Json.num 2]
      rangeSampler_ok).1 (by decide)).1
  · exact (width_bound rangeSampler 5 [Json.null] rangeSampler_ok).2.1 (by decide)

/-- C6: a frame whose fetch fails (URI not served by the graph) marks the
URI visited and appends exactly one Problem carrying that URI — nothing
else changes and no exception escapes (the scan is a total function) —
and the child loop then simply continues with the remaining siblings on
the resulting state. -/
theorem fetch_failure_one_problem (g : List (String × Json))
    (smp : Nat → Nat → List Nat) (N W : Nat) (entry : String)
    (parent : Option RModel) (st : ScanState)
    (hb : st.redfish.length < N)
    (hv : st.scanned.contains entry = false)
    (hj : hasJsonschemas entry = false)
    (hf : lookupG g entry = none) :
    (∀ f, scanModels g smp N W (f + 1) entry parent st
        = (⟨st.redfish, st.scanned ++ [entry],
            st.problems ++ [⟨entry, fetchErrText entry⟩]⟩ : ScanState)) ∧
    (∀ f us p (st' : ScanState), st'.scanned.contains entry = false →
        scanChildren g smp N W f (entry :: us) p st'
          = scanChildren g smp N W f us p (scanModels g smp N W f entry p st')) := by
  constructor
  · intro f
    rw [scanModels_succ]
    simp only [hb, if_true, hv, hj, Bool.not_false, Bool.and_self, if_true]
    rw [scanVisit_none smp N W f parent _ hf]
    rfl
  · intro f us p st' h
    rw [scanChildren_cons]
    simp only [h, Bool.false_eq_true, if_false]

theorem fetch_failure_one_problem_witness :
    scanModels [] rangeSampler 1 50 3 "/a" none initState
      = (⟨[], ["/a"], [⟨"/a", fetchErrText "/a"⟩]⟩ : ScanState) :=
  (fetch_failure_one_problem [] rangeSampler 1 50 "/a" none initState
    (by decide) (by decide) (by decide) rfl).1 2

/-- C7: a visited URI whose derived name equals the immediate parent's
name (and likewise one from whose data no name is derivable) registers no
node — the discovered collection entering the child loop is unchanged —
yet the extracted child URIs are still recursed into, with no parent
node. -/
theorem self_named_child_skipped (g : List (String × Json))
    (smp : Nat → Nat → List Nat) (N W : Nat) (entry : String) (parent : RModel)
    (st : ScanState) (data : Json) (uris : List String) (nm : Option String)
    (hb : st.redfish.length < N)
    (hv : st.scanned.contains entry = false)
    (hj : hasJsonschemas entry = false)
    (hf : lookupG g entry = some data)
    (hn : getModelName data = Except.ok nm)
    (hskip : nm = none ∨ nm = some parent.name)
    (hu : getUris smp W data = Except.ok uris) :
    ∀ f, scanModels g smp N W (f + 1) entry (some parent) st
      = scanChildren g smp N W f uris none
          (⟨st.redfish, st.scanned ++ [entry], st.problems⟩ : ScanState) := by
  intro f
  rw [scanModels_succ]
  simp only [hb, if_true, hv, hj, Bool.not_false, Bool.and_self, if_true]
  rw [scanVisit_some smp N W f (some parent) _ hf]
  rw [scanData_ok g smp N W f entry (some parent) _ hn]
  have hmo : mkModelOpt (some parent) nm data entry = none := by
    rcases hskip with h | h
    · rw [h]; rfl
    · rw [h]
      unfold mkModelOpt registrable
      simp
  rw [hmo]
  rw [scanNamed_ok g N f entry none _ hu]
  rfl

theorem self_named_child_skipped_witness :
    scanModels graphX rangeSampler 5 50 3 "/a" (some parentX) initState
      = scanChildren graphX rangeSampler 5 50 2 [] none
          (⟨[], ["/a"], []⟩ : ScanState) :=
  self_named_child_skipped graphX rangeSampler 5 50 "/a" parentX initState
    dataX [] (some "X") (by decide) (by decide) (by decide) rfl rfl
    (Or.inr rfl)
    (by simp [dataX, getUris, getUrisFields, fieldStep, membersStep, dictStep,
          exBind, pushUri]) 2

/-- C9 counterexample: the Chassis scenario instance yields one extracted
child URI — its own `@odata.id` value `/c/1` — not zero:
`Scanner._get_uris` collects every `@odata.id` field, including the
instance's own identity link. -/
theorem chassis_zero_children_cex :
    getUris rangeSampler 50 chassisJson = Except.ok ["/c/1"] ∧
    (["/c/1"] : List String) ≠ ([] : List String) := by
  constructor
  · simp [chassisJson, getUris, getUrisFields, fieldStep, membersStep, dictStep,
          exBind, pushUri]
  · decide

/-- C9 (amended): when the entry fetch at `/c/1` returns the Chassis
instance, the scan registers exactly one node, named `Chassis` with
category Resource and `full_name` `Chassis`; exactly one child URI is
extracted — the instance's own `@odata.id` value `/c/1` — and since it is
the already-visited entry URI, no further URI is visited and the scan
stops with no problems. -/
theorem chassis_scenario_amended :
    (scanModels chassisGraph rangeSampler 500 50 3 "/c/1" none initState).redfish.map
        (fun m => (m.name, m.full_name)) = [("Chassis", "Chassis")] ∧
    (scanModels chassisGraph rangeSampler 500 50 3 "/c/1" none initState).redfish.map
        RModel.category = [RCategory.RESOURCE] ∧
    (scanModels chassisGraph rangeSampler 500 50 3 "/c/1" none initState).scanned
      = ["/c/1"] ∧
    (scanModels chassisGraph rangeSampler 500 50 3 "/c/1" none initState).problems
      = [] ∧
    getUris rangeSampler 50 chassisJson = Except.ok ["/c/1"] := by
  have hgu : getUris rangeSampler 50 chassisJson = Except.ok ["/c/1"] := by
    simp [chassisJson, getUris, getUrisFields, fieldStep, membersStep, dictStep,
          exBind, pushUri]
  have hgm : getModelName chassisJson = Except.ok (some "Chassis") := rfl
  have hj : hasJsonschemas "/c/1" = false := by decide
  have hscan : scanModels chassisGraph rangeSampler 500 50 3 "/c/1" none initState
      = (⟨[RModel.mk "Chassis" chassisJson "/c/1" none], ["/c/1"], []⟩ : ScanState) := by
    simp [scanModels, scanVisit, scanData, scanNamed, scanChildren, initState,
          lookupG, chassisGraph, registerModel, memModel, modelEq, registrable,
          mkModelOpt, regStep, addProblem, hgu, hgm, hj]
  rw [hscan]
  exact ⟨by decide, by decide, rfl, rfl, hgu⟩

/-- C4 counterexample: running the pipeline on a Collection definition
`FooCollection` plus a definition `Other` holding a bare reference to it,
the Collection is collapsed (fields stripped, base `Collection`) but the
referencing field of `Other` still reads `FooCollection` — it is not
rewritten to the Canonical Collection type, because `_clean_up_models` is
invoked only for the Link and Action categories. -/
theorem collection_collapse_cex :
    getDataModels "Nope" none "/u" none [collModel0, otherModel0]
      = [⟨"FooCollection", [], ["Collection"], [], none⟩,
         ⟨"Other", [⟨"stuff", FieldShape.ref "FooCollection", none⟩],
           ["pydantic.BaseModel"], [], none⟩] ∧
    FieldShape.ref "FooCollection"
      ≠ getDataTypeShape DataModelCategory.COLLECTION none false := by
  exact ⟨by decide, by decide⟩

/-- C4 (amended): every definition categorized as Collection loses the
Collection required fields and category-specific optional fields and gets
exactly the Canonical Collection base type; every other definition passes
through the collapse step unchanged — in particular its references to a
collapsed Collection definition are NOT rewritten (the reference-rewrite
of `_clean_up_models` runs only for Link and Action, whose definitions
are removed outright; a reference to a collapsed Collection still
resolves because the definition is kept under its own name). -/
theorem collection_collapse_amended (models : List PModel) :
    (updateClasses models DataModelCategory.COLLECTION
      = models.map (fun m =>
          if pmCategory m == DataModelCategory.COLLECTION then
            { m with
              fields := m.fields.filter (fun f =>
                !(requiredFields DataModelCategory.COLLECTION ++
                  optionalFields DataModelCategory.COLLECTION).contains f.name),
              baseClasses := [categoryValue DataModelCategory.COLLECTION] }
          else m)) ∧
    (∀ m ∈ models, pmCategory m = DataModelCategory.COLLECTION →
      ∃ m' ∈ updateClasses models DataModelCategory.COLLECTION,
        m'.name = m.name ∧ m'.baseClasses = ["Collection"] ∧
        ∀ fl ∈ m'.fields,
          fl.name ∉ requiredFields DataModelCategory.COLLECTION ++
            optionalFields DataModelCategory.COLLECTION) ∧
    (∀ m ∈ models, pmCategory m ≠ DataModelCategory.COLLECTION →
      m ∈ updateClasses models DataModelCategory.COLLECTION) := by
  have hchar : updateClasses models DataModelCategory.COLLECTION
      = models.map (fun m =>
          if pmCategory m == DataModelCategory.COLLECTION then
            { m with
              fields := m.fields.filter (fun f =>
                !(requiredFields DataModelCategory.COLLECTION ++
                  optionalFields DataModelCategory.COLLECTION).contains f.name),
              baseClasses := [categoryValue DataModelCategory.COLLECTION] }
          else m) := by
    unfold updateClasses
    by_cases h : (models.filter
        (fun m => pmCategory m == DataModelCategory.COLLECTION)).length != 0
    · simp only [h, if_true]
    · have hlen : (models.filter
          (fun m => pmCategory m == DataModelCategory.COLLECTION)).length = 0 := by
        simpa using h
      have hnil : models.filter
          (fun m => pmCategory m == DataModelCategory.COLLECTION) = [] :=
        List.length_eq_zero.mp hlen
      have hnone : ∀ m ∈ models, ¬ (pmCategory m == DataModelCategory.COLLECTION) = true := by
        intro m hm hcat
        have : m ∈ models.filter
            (fun m => pmCategory m == DataModelCategory.COLLECTION) :=
          List.mem_filter.mpr ⟨hm, hcat⟩
        rw [hnil] at this
        cases this
      have hmap : models.map (fun m =>
          if pmCategory m == DataModelCategory.COLLECTION then
            { m with
              fields := m.fields.filter (fun f =>
                !(requiredFields DataModelCategory.COLLECTION ++
                  optionalFields DataModelCategory.COLLECTION).contains f.name),
              baseClasses := [categoryValue DataModelCategory.COLLECTION] }
          else m) = models.map id := by
        apply List.map_congr_left
        intro m hm
        simp only [id]
        rw [if_neg (hnone m hm)]
      have hcond : ((models.filter
          (fun m => pmCategory m == DataModelCategory.COLLECTION)).length != 0) = false := by
        simpa using h
      simp only [hcond, Bool.false_eq_true, if_false]
      exact (hmap.trans (List.map_id models)).symm
  refine ⟨hchar, ?_, ?_⟩
  · intro m hm hcat
    refine ⟨{ m with
        fields := m.fields.filter (fun f =>
          !(requiredFields DataModelCategory.COLLECTION ++
            optionalFields DataModelCategory.COLLECTION).contains f.name),
        baseClasses := [categoryValue DataModelCategory.COLLECTION] }, ?_, rfl, rfl, ?_⟩
    · rw [hchar]
      apply List.mem_map.mpr
      refine ⟨m, hm, ?_⟩
      rw [if_pos (beq_iff_eq.mpr hcat)]
    · intro fl hfl
      have hp := (List.mem_filter.mp hfl).2
      intro hmem
      have hnotin : fl.name ∉ requiredFields DataModelCategory.COLLECTION ++
          optionalFields DataModelCategory.COLLECTION := by
        simpa using hp
      exact hnotin hmem
  · intro m hm hcat
    rw [hchar]
    apply List.mem_map.mpr
    refine ⟨m, hm, ?_⟩
    rw [if_neg (by simpa using hcat)]

theorem collection_collapse_amended_witness :
    pmCategory collModel0 = DataModelCategory.COLLECTION ∧
    (∃ m' ∈ updateClasses [collModel0] DataModelCategory.COLLECTION,
        m'.name = collModel0.name ∧ m'.baseClasses = ["Collection"] ∧
        ∀ fl ∈ m'.fields,
          fl.name ∉ requiredFields DataModelCategory.COLLECTION ++
            optionalFields DataModelCategory.COLLECTION) ∧
    otherModel0 ∈ updateClasses [collModel0, otherModel0]
      DataModelCategory.COLLECTION := by
  refine ⟨by decide, ?_, ?_⟩
  · exact (collection_collapse_amended [collModel0]).2.1 collModel0
      (List.mem_singleton_self _) (by decide)
  · exact (collection_collapse_amended [collModel0, otherModel0]).2.2 otherModel0
      (by simp) (by decide)

set_option maxRecDepth 40000 in
/-- C8 (code bug): with a manifest whose exported names wrap past the
120-character line, the name that triggers the wrap (`B`) is dropped from
the emitted `__all__` list — the wrap branch of the loop flushes the line
without appending the current name — although `B` still appears in its
unit's import statement; the spec requires `__all__` to enumerate every
exported name. -/
theorem init_file_drops_wrapped_name :
    "B" ∈ allExportedNames initData8 ∧
    isSubstrS "\x22B\x22" (prepareInitContent initData8) = false ∧
    isSubstrS "from .b import B" (prepareInitContent initData8) = true ∧
    isSubstrS "\x22DataManager\x22" (prepareInitContent initData8) = true := by
  exact ⟨by decide, by decide, by decide, by decide⟩
